import Mathlib

/-!
Shallow embedding of the Transcriber job pipeline and delivery outbox
(src/lib/db.py, src/lib/worker.py, src/lib/outbox.py, src/lib/emailer.py,
src/lib/utils.py), with theorems settling the specification claims.

Timestamps are modelled as rationals (the code stores sortable
"YYYY-MM-DD HH:MM:SS" strings whose lexicographic order agrees with
chronological order); SQL tables are modelled as lists of row structures.
-/

namespace Transcriber

/-- Job status enumeration (db.py schema comment:
queued|downloading|transcribing|done|error|canceled). -/
inductive JStatus
  | queued
  | downloading
  | transcribing
  | done
  | error
  | canceled
deriving DecidableEq, Repr

/-- Outbox status enumeration (db.py schema comment: queued|sending|sent|error). -/
inductive OStatus
  | queued
  | sending
  | sent
  | error
deriving DecidableEq, Repr

/-- One row of the jobs table (db.py `db_init`). -/
structure JobRow where
  id : Nat
  name : String
  slug : String
  url : String
  status : JStatus
  progress : Rat
  log : String
  media_path : Option String
  txt_path : Option String
  created_at : Rat
  updated_at : Rat
  error : Option String
  recipient_group : Option String
deriving DecidableEq, Repr

/-- One row of the outbox table (db.py `db_init`). -/
structure OutboxRow where
  id : Nat
  job_id : Option Nat
  to_addr : String
  subject : String
  body_text : String
  body_html : Option String
  attachment_path : Option String
  status : OStatus
  attempts : Nat
  last_error : Option String
  send_after : Rat
  created_at : Rat
  updated_at : Rat
deriving DecidableEq, Repr

/-! ## db_init crash recovery (db.py line 33)

`UPDATE jobs SET status='queued' WHERE status IN ('downloading','transcribing')`:
a plain SQL update touching only the status column of matching rows. -/

/-- The effect of db_init's requeue UPDATE on a single row. -/
def requeueRow (r : JobRow) : JobRow :=
  if r.status = JStatus.downloading ∨ r.status = JStatus.transcribing then
    { r with status := JStatus.queued }
  else r

/-- The effect of db_init's requeue UPDATE on the whole jobs table. -/
def db_init_requeue (db : List JobRow) : List JobRow :=
  db.map requeueRow

/-! ## Slugs (utils.py `slugify`, db.py `ensure_unique_slug`) -/

/-- Python `\w` on the ASCII inputs used here: alphanumeric or underscore. -/
def isWordChar (c : Char) : Bool :=
  c.isAlphanum || c == '_'

/-- Python `\s` whitespace class (ASCII part). -/
def isSpaceChar (c : Char) : Bool :=
  c == ' ' || c == '\t' || c == '\n' || c == '\r' || c == '\x0b' || c == '\x0c'

/-- A character matched by the class `[\s_-]` of slugify's second regex. -/
def isSepChar (c : Char) : Bool :=
  isSpaceChar c || c == '_' || c == '-'

/-- `re.sub(r"[\s_-]+", "-", s)`: collapse each run of separator characters
into a single hyphen.  The boolean argument records whether the previous
character was part of a separator run. -/
def collapseSeps (prevSep : Bool) : List Char → List Char
  | [] => []
  | c :: cs =>
    if isSepChar c then
      if prevSep then collapseSeps true cs
      else '-' :: collapseSeps true cs
    else c :: collapseSeps false cs

/-- Drop hyphens from both ends (`re.sub(r"^-+|-+$", "", s)`). -/
def trimHyphens (l : List Char) : List Char :=
  ((l.dropWhile (fun c => c == '-')).reverse.dropWhile (fun c => c == '-')).reverse

/-- Python `str.strip()`: drop whitespace from both ends. -/
def stripChars (l : List Char) : List Char :=
  ((l.dropWhile isSpaceChar).reverse.dropWhile isSpaceChar).reverse

/-- utils.py `slugify`: strip+lowercase, delete characters outside
`[\w\s-]`, collapse separator runs to `-`, trim hyphens, default "job". -/
def slugify (s : String) : String :=
  let t := (stripChars s.toList).map Char.toLower
  let t := t.filter (fun c => isWordChar c || isSpaceChar c || c == '-')
  let t := collapseSeps false t
  let t := trimHyphens t
  if t.isEmpty then "job" else String.mk t

/-- db.py `ensure_unique_slug` loop body, with explicit fuel for the
unbounded `while True`.  `dbSlugs` models `SELECT 1 FROM jobs WHERE slug=?`,
`fsNames` models `(data_dir / slug).exists()`. -/
def ensure_unique_slug_from (dbSlugs fsNames : List String) (base : String) :
    String → Nat → Nat → Option String
  | _, _, 0 => none
  | slug, i, fuel + 1 =>
    if ¬ dbSlugs.contains slug ∧ ¬ fsNames.contains slug then some slug
    else
      ensure_unique_slug_from dbSlugs fsNames base
        (base ++ "-" ++ toString i) (i + 1) fuel

/-- db.py `ensure_unique_slug`: start from the base slug with suffix
counter `i = 2`. -/
def ensure_unique_slug (dbSlugs fsNames : List String) (base : String)
    (fuel : Nat) : Option String :=
  ensure_unique_slug_from dbSlugs fsNames base base 2 fuel

/-! ## The atomic claim primitive (worker.py `Worker._claim_next_job`,
outbox.py `Mailer._claim`)

Both functions run, inside one `BEGIN IMMEDIATE` transaction:
`SELECT * FROM t WHERE <eligible> ORDER BY id ASC LIMIT 1`, then
`UPDATE t SET <in-progress> WHERE id=? AND <still eligible>`, and return
the selected row only when the conditional update reported rowcount 1.
`claimAt` models this generically; `sel` is the table state the SELECT
sees and `upd` the state the UPDATE runs against (identical in the
serialized transaction, kept separate so the lost-race zero-rowcount
branch is expressible). -/

/-- `SELECT ... WHERE p ORDER BY key ASC LIMIT 1`. -/
def selMin {α : Type} (key : α → Nat) (p : α → Bool) : List α → Option α
  | [] => none
  | r :: rs =>
    match selMin key p rs with
    | none => if p r then some r else none
    | some b => if p r then (if key r ≤ key b then some r else some b) else some b

/-- `UPDATE ... SET (f) WHERE key=i AND p`. -/
def condUpd {α : Type} (key : α → Nat) (i : Nat) (p : α → Bool) (f : α → α)
    (l : List α) : List α :=
  l.map (fun r => if key r = i ∧ p r = true then f r else r)

/-- The rowcount reported by that conditional UPDATE. -/
def condCount {α : Type} (key : α → Nat) (i : Nat) (p : α → Bool)
    (l : List α) : Nat :=
  (l.filter (fun r => decide (key r = i) && p r)).length

/-- Select-then-conditionally-update claim; returns the pre-claim row
contents on success together with the table after the UPDATE. -/
def claimAt {α : Type} (key : α → Nat) (p : α → Bool) (f : α → α)
    (sel upd : List α) : Option α × List α :=
  match selMin key p sel with
  | none => (none, upd)
  | some row =>
    if condCount key (key row) p upd = 1 then
      (some row, condUpd key (key row) p f upd)
    else
      (none, condUpd key (key row) p f upd)

/-- Job eligibility: `status='queued'`. -/
def jobEligible (r : JobRow) : Bool :=
  decide (r.status = JStatus.queued)

/-- The claiming UPDATE's SET clause for jobs: `status='downloading'`. -/
def jobClaimUpd (r : JobRow) : JobRow :=
  { r with status := JStatus.downloading }

/-- worker.py `Worker._claim_next_job` with distinct SELECT/UPDATE states. -/
def claim_next_job_at (sel upd : List JobRow) : Option JobRow × List JobRow :=
  claimAt JobRow.id jobEligible jobClaimUpd sel upd

/-- worker.py `Worker._claim_next_job`: the serialized transaction runs
SELECT and UPDATE against the same table state. -/
def claim_next_job (db : List JobRow) : Option JobRow × List JobRow :=
  claim_next_job_at db db

/-- Outbox eligibility: `status='queued' AND send_after <= now`. -/
def outboxEligible (now : Rat) (r : OutboxRow) : Bool :=
  decide (r.status = OStatus.queued) && decide (r.send_after ≤ now)

/-- The claiming UPDATE's SET clause for the outbox:
`status='sending', updated_at=now`. -/
def outboxClaimUpd (now : Rat) (r : OutboxRow) : OutboxRow :=
  { r with status := OStatus.sending, updated_at := now }

/-- outbox.py `Mailer._claim` with distinct SELECT/UPDATE states. -/
def mailer_claim_at (now : Rat) (sel upd : List OutboxRow) :
    Option OutboxRow × List OutboxRow :=
  claimAt OutboxRow.id (outboxEligible now) (outboxClaimUpd now) sel upd

/-- outbox.py `Mailer._claim`. -/
def mailer_claim (now : Rat) (db : List OutboxRow) :
    Option OutboxRow × List OutboxRow :=
  mailer_claim_at now db db

/-! ## Outbox retry backoff (outbox.py `Mailer._fail`, `Mailer._loop`)

`_fail` computes
`delay = min(RETRY_MAX_SEC, RETRY_BASE_SEC * (2 ** min(attempts, 8)))`,
`jitter = delay * 0.2 * (random.random() - 0.5)`, truncates
`now + delay + jitter` to whole seconds via strftime/localtime, and
updates the row to status queued with the given attempts value, the
truncated error and the new send_after.  The random draw `r` is
modelled as a rational in `[0, 1)`. -/

/-- Default `MAIL_RETRY_BASE_SEC` (outbox.py line 23). -/
def RETRY_BASE_SEC : Nat := 30

/-- Default `MAIL_RETRY_MAX_SEC` (outbox.py line 24). -/
def RETRY_MAX_SEC : Nat := 3600

/-- `min(maxSec, base * 2 ** min(attempts, 8))`. -/
def backoff_delay (base maxSec attempts : Nat) : Nat :=
  min maxSec (base * 2 ^ (min attempts 8))

/-- `delay * 0.2 * (r - 0.5)` for the uniform draw `r`. -/
def backoff_jitter (delay : Nat) (r : Rat) : Rat :=
  (delay : Rat) * (1 / 5) * (r - 1 / 2)

/-- The rescheduled `send_after`: `now + delay + jitter`, truncated to
whole seconds by `time.strftime("%Y-%m-%d %H:%M:%S", localtime(...))`. -/
def fail_send_after (base maxSec attempts : Nat) (now r : Rat) : Int :=
  Int.floor (now + (backoff_delay base maxSec attempts : Rat) +
    backoff_jitter (backoff_delay base maxSec attempts) r)

/-- outbox.py `Mailer._fail`: the UPDATE applied to the claimed row
(`status='queued', attempts=?, last_error=?, send_after=?, updated_at=?`). -/
def mailer_fail (base maxSec : Nat) (item : OutboxRow) (msg : String)
    (attempts : Nat) (now r : Rat) : OutboxRow :=
  { item with
    status := OStatus.queued,
    attempts := attempts,
    last_error := some (msg.take 500),
    send_after := ((fail_send_after base maxSec attempts now r : Int) : Rat),
    updated_at := now }

/-- outbox.py `Mailer._loop` token-bucket-denied branch:
`self._fail(item, "rate-limit defer", item["attempts"])`. -/
def rate_limit_defer (item : OutboxRow) (now r : Rat) : OutboxRow :=
  mailer_fail RETRY_BASE_SEC RETRY_MAX_SEC item "rate-limit defer"
    item.attempts now r

/-- outbox.py `Mailer._loop` send-exception branch:
`self._fail(item, str(e), item["attempts"] + 1)`. -/
def send_failure (item : OutboxRow) (msg : String) (now r : Rat) : OutboxRow :=
  mailer_fail RETRY_BASE_SEC RETRY_MAX_SEC item msg (item.attempts + 1) now r

/-! ## Token bucket (outbox.py `TokenBucket`) -/

/-- outbox.py `TokenBucket` state: rate tokens/second, capacity, current
tokens, last-check monotonic time. -/
structure TokenBucket where
  rate : Rat
  burst : Rat
  tokens : Rat
  t : Rat
deriving DecidableEq, Repr

/-- outbox.py `TokenBucket.__init__`:
`rate = max(0.001, rate_per_min / 60.0)`, `burst = max(1, burst)`,
`tokens = float(burst)`, `t = time.monotonic()`. -/
def TokenBucket.init (rate_per_min burst : Nat) (t0 : Rat) : TokenBucket :=
  let rate := max (1 / 1000 : Rat) ((rate_per_min : Rat) / 60)
  let b := (max 1 burst : Nat)
  { rate := rate, burst := (b : Rat), tokens := (b : Rat), t := t0 }

/-- outbox.py `TokenBucket.take` at monotonic time `now`: lazy refill
capped at burst, then permit iff at least one token, consuming one. -/
def TokenBucket.take (tb : TokenBucket) (now : Rat) : Bool × TokenBucket :=
  let tokens := min tb.burst (tb.tokens + (now - tb.t) * tb.rate)
  if 1 ≤ tokens then
    (true, { tb with tokens := tokens - 1, t := now })
  else
    (false, { tb with tokens := tokens, t := now })

/-- Run `take` once per timestamp in the list, returning the outcomes. -/
def takeSeq (tb : TokenBucket) : List Rat → List Bool
  | [] => []
  | t :: ts => (tb.take t).1 :: takeSeq (tb.take t).2 ts

/-! ## Completion notification (worker.py `Worker._maybe_notify`,
emailer.py `notify_recipients`)

`_maybe_notify` runs after the final `done` transition.  When
`settings.auto_send_email` is set it calls `emailer.notify_recipients`,
which loads the recipient lists and invokes `send_email` DIRECTLY —
synchronously over SMTP — once per recipient; it performs no insert into
the outbox table (`enqueue_email` is never called on this path).  The
observable effects are modelled as a list of actions. -/

/-- An observable effect of the notification path: a direct synchronous
`send_email` invocation, an `INSERT INTO outbox` (emitted only by
outbox.py `enqueue_email`, which `notify_recipients` never calls), or an
appended job-log line. -/
inductive MailAct
  | sendAttempt (addr : String)
  | enqueueOutbox (addr : String)
  | logMsg (m : String)
deriving DecidableEq, Repr

/-- The settings and parsed recipient files consumed by
`notify_recipients` (recipient parsing itself is out of scope here: the
lists are the outputs of `load_recipients`). -/
structure MailSettings where
  auto_send_email : Bool
  smtp_host : String
  smtp_sender : String
  recipients_main : List String
  recipients_group : List String
deriving DecidableEq, Repr

/-- emailer.py `unique_preserve_order`: drop duplicates, keeping first
occurrences in order. -/
def unique_preserve_order (l : List String) : List String :=
  l.foldl (fun acc x => if acc.contains x then acc else acc.concat x) []

/-- The deduplicated group-then-main recipient list
(`unique_preserve_order([*group_list, *main_list])`). -/
def intended_recipients (s : MailSettings) : List String :=
  unique_preserve_order (s.recipients_group ++ s.recipients_main)

/-- emailer.py `notify_recipients`: skip (with a log line) when the list
is empty or SMTP is unconfigured; otherwise one direct send per
recipient followed by the summary log line. -/
def notify_recipients (s : MailSettings) : List MailAct :=
  let recs := intended_recipients s
  if recs.isEmpty then
    [MailAct.logMsg "No recipients found. Skipping email."]
  else if s.smtp_host.isEmpty || s.smtp_sender.isEmpty then
    [MailAct.logMsg "SMTP not configured. Skipping email."]
  else
    recs.map MailAct.sendAttempt ++ [MailAct.logMsg "Email summary"]

/-- worker.py `Worker._maybe_notify`: notify when auto-send is enabled,
otherwise log that manual delivery is required. -/
def maybe_notify (s : MailSettings) : List MailAct :=
  if s.auto_send_email then notify_recipients s
  else [MailAct.logMsg
    "Auto-send disabled (AUTO_SEND_EMAIL=0). Use Send mail button."]

/-- Number of outbox inserts among the actions. -/
def countEnqueues (l : List MailAct) : Nat :=
  (l.filter fun a =>
    match a with
    | MailAct.enqueueOutbox _ => true
    | _ => false).length

/-- Number of direct send invocations among the actions. -/
def countSendAttempts (l : List MailAct) : Nat :=
  (l.filter fun a =>
    match a with
    | MailAct.sendAttempt _ => true
    | _ => false).length

/-- Concrete settings used by the C3 counterexample: auto-delivery on,
SMTP configured, one recipient. -/
def c3Settings : MailSettings :=
  { auto_send_email := true, smtp_host := "smtp.example",
    smtp_sender := "svc@example.com",
    recipients_main := ["a@example.com"], recipients_group := [] }

/-! ## Worker job processing (worker.py `Worker._process_job`,
`_download`, `_transcribe`, `_abort_check`)

The collaborators (`Downloader`, `Transcriber`) interact with the worker
only through progress callbacks, each of which first runs `_abort_check`
(a FRESH read of the job's status, raising `JobAborted` when it is
'canceled') and then writes the scaled progress.  A phase is therefore
modelled as a list of events: `prog f` is one collaborator progress
callback with fraction `f`, and `cancel` is an external
`status='canceled'` write landing between callbacks.  The phase outcome
`PEnd` says whether the collaborator call returned or raised.  The
worker's own database writes are collected as a list of `Act`ions;
external cancel writes mutate the threaded state but are not worker
actions. -/

/-- A phase event: an external cancel write, or a collaborator progress
callback carrying its fraction. -/
inductive PEv
  | cancel
  | prog (f : Rat)
deriving DecidableEq, Repr

/-- How a collaborator call ends: normal return, or an exception with
message. -/
inductive PEnd
  | ok
  | fail (msg : String)
deriving DecidableEq, Repr

/-- The job-row fields the worker reads and writes while processing. -/
structure JState where
  status : JStatus
  progress : Rat
  error : Option String
  media_path : Option String
  txt_path : Option String
deriving DecidableEq, Repr

/-- One worker-issued database write (via `update_job`), or a
collaborator invocation marker. -/
inductive Act
  | updProgress (p : Rat)
  | updStatusMedia (st : JStatus) (media : String)
  | updError (msg : String)
  | updDone (txt : String) (media : Option String)
  | invokeDl
  | invokeTr
deriving DecidableEq, Repr

/-- Apply one worker action to the job state. -/
def applyAct (s : JState) : Act → JState
  | Act.updProgress p => { s with progress := p }
  | Act.updStatusMedia st m => { s with status := st, media_path := some m }
  | Act.updError m => { s with status := JStatus.error, error := some m }
  | Act.updDone txt m =>
    { s with status := JStatus.done, txt_path := some txt,
             media_path := m, progress := 100 }
  | Act.invokeDl => s
  | Act.invokeTr => s

/-- Apply a list of worker actions in order. -/
def applyActs (s : JState) (l : List Act) : JState :=
  l.foldl applyAct s

/-- Download progress mapping: `update_job(progress=frac * 50)`. -/
def dlScale (f : Rat) : Rat := f * 50

/-- Transcription progress mapping:
`update_job(progress=50 + frac * 50)`. -/
def trScale (f : Rat) : Rat := 50 + f * 50

/-- Run one phase's event list.  Each `prog` callback first performs the
fresh-status `_abort_check` (stopping with the abort flag true when the
status reads 'canceled' — `JobAborted` propagates out of the collaborator
with no further worker writes) and then writes the scaled progress.
Returns (final state, worker writes, aborted?). -/
def runPhase (scale : Rat → Rat) (s : JState) :
    List PEv → JState × List Act × Bool
  | [] => (s, [], false)
  | PEv.cancel :: evs =>
    runPhase scale { s with status := JStatus.canceled } evs
  | PEv.prog f :: evs =>
    if s.status = JStatus.canceled then (s, [], true)
    else
      ((runPhase scale { s with progress := scale f } evs).1,
       Act.updProgress (scale f) ::
         (runPhase scale { s with progress := scale f } evs).2.1,
       (runPhase scale { s with progress := scale f } evs).2.2)

/-- The final `done` write (worker.py lines 104-108):
`status='done', txt_path=..., media_path=(uploaded or NULL), progress=100`. -/
def finalizeDone (hasUploaded : Bool) (finalMedia txtPath : String)
    (s : JState) : JState × List Act :=
  ({ s with status := JStatus.done, txt_path := some txtPath,
            media_path := if hasUploaded then some finalMedia else none,
            progress := 100 },
   [Act.updDone txtPath (if hasUploaded then some finalMedia else none)])

/-- worker.py `_transcribe` plus the surrounding handlers in
`_process_job`: run the transcription callbacks; on `JobAborted` log and
return with no further writes; on an exception set status 'error'; on
success issue the final done write. -/
def runTranscribe (s : JState) (trEvs : List PEv) (trEnd : PEnd)
    (hasUploaded : Bool) (finalMedia txtPath : String) : JState × List Act :=
  if (runPhase trScale s trEvs).2.2 then
    ((runPhase trScale s trEvs).1,
     Act.invokeTr :: (runPhase trScale s trEvs).2.1)
  else
    match trEnd with
    | PEnd.fail m =>
      ({ (runPhase trScale s trEvs).1 with
           status := JStatus.error, error := some m },
       Act.invokeTr :: ((runPhase trScale s trEvs).2.1 ++ [Act.updError m]))
    | PEnd.ok =>
      ((finalizeDone hasUploaded finalMedia txtPath
          (runPhase trScale s trEvs).1).1,
       Act.invokeTr :: ((runPhase trScale s trEvs).2.1 ++
         (finalizeDone hasUploaded finalMedia txtPath
            (runPhase trScale s trEvs).1).2))

/-- worker.py `_process_job`.  After `_set(progress=0)`: when an uploaded
file exists at the recorded media path, `_abort_check` then a direct
transition to 'transcribing' (the Downloader is never invoked); otherwise
`_download` (invoke the Downloader with its callbacks; on `JobAborted`
log-and-reraise with no writes — the loop only logs; on exception set
status 'error'; on success transition to 'transcribing' with the
resolved path) and then the transcription phase. -/
def process_job (s0 : JState) (hasUploaded : Bool)
    (uploadedPath dlPath txtPath : String)
    (dlEvs : List PEv) (dlEnd : PEnd) (trEvs : List PEv) (trEnd : PEnd) :
    JState × List Act :=
  let s : JState := { s0 with progress := 0 }
  if hasUploaded then
    if s.status = JStatus.canceled then
      (s, [Act.updProgress 0])
    else
      ((runTranscribe
          { s with status := JStatus.transcribing,
                   media_path := some uploadedPath }
          trEvs trEnd true uploadedPath txtPath).1,
       Act.updProgress 0 ::
         Act.updStatusMedia JStatus.transcribing uploadedPath ::
         (runTranscribe
            { s with status := JStatus.transcribing,
                     media_path := some uploadedPath }
            trEvs trEnd true uploadedPath txtPath).2)
  else
    if (runPhase dlScale s dlEvs).2.2 then
      ((runPhase dlScale s dlEvs).1,
       Act.updProgress 0 :: Act.invokeDl :: (runPhase dlScale s dlEvs).2.1)
    else
      match dlEnd with
      | PEnd.fail m =>
        ({ (runPhase dlScale s dlEvs).1 with
             status := JStatus.error, error := some m },
         Act.updProgress 0 :: Act.invokeDl ::
           ((runPhase dlScale s dlEvs).2.1 ++ [Act.updError m]))
      | PEnd.ok =>
        ((runTranscribe
            { (runPhase dlScale s dlEvs).1 with
                status := JStatus.transcribing, media_path := some dlPath }
            trEvs trEnd false dlPath txtPath).1,
         Act.updProgress 0 :: Act.invokeDl ::
           ((runPhase dlScale s dlEvs).2.1 ++
             (Act.updStatusMedia JStatus.transcribing dlPath ::
               (runTranscribe
                  { (runPhase dlScale s dlEvs).1 with
                      status := JStatus.transcribing,
                      media_path := some dlPath }
                  trEvs trEnd false dlPath txtPath).2)))

/-- The state in which the transcription phase starts on the url path:
after the download's `_set(status='transcribing', media_path=...)`. -/
def trEntryUrl (s0 : JState) (dPath : String) (dlEvs : List PEv) : JState :=
  { (runPhase dlScale { s0 with progress := 0 } dlEvs).1 with
      status := JStatus.transcribing, media_path := some dPath }

/-- The state in which the transcription phase starts on the
uploaded-media path. -/
def trEntryUp (s0 : JState) (uPath : String) : JState :=
  { { s0 with progress := 0 } with
      status := JStatus.transcribing, media_path := some uPath }

/-- No external cancel write occurs among the events. -/
def noCancel (evs : List PEv) : Prop :=
  ∀ e ∈ evs, e ≠ PEv.cancel

/-- An external cancel write is followed by at least one later progress
callback (= cancellation checkpoint) within the same phase. -/
def cancelThenCheckpoint (evs : List PEv) : Prop :=
  ∃ pre mid post f, evs = pre ++ PEv.cancel :: (mid ++ PEv.prog f :: post)

/-- Concrete initial state for worker-model witnesses: a job as it looks
right after a successful claim (status 'downloading'). -/
def claimedState : JState :=
  { status := JStatus.downloading, progress := 37, error := none,
    media_path := some "up.mp4", txt_path := none }

/-- Concrete job-row builder used by witnesses. -/
def mkJob (i : Nat) (st : JStatus) : JobRow :=
  { id := i, name := "n", slug := "s", url := "u", status := st,
    progress := 0, log := "", media_path := none, txt_path := none,
    created_at := 0, updated_at := 0, error := none, recipient_group := none }

/-- Concrete outbox-row builder used by witnesses. -/
def mkMsg (i : Nat) (st : OStatus) (sendAfter : Rat) : OutboxRow :=
  { id := i, job_id := none, to_addr := "a@example.com", subject := "s",
    body_text := "b", body_html := none, attachment_path := none,
    status := st, attempts := 0, last_error := none,
    send_after := sendAfter, created_at := 0, updated_at := 0 }

end Transcriber

namespace Transcriber

/-! ## Theorems -/

theorem selMin_none {α : Type} (key : α → Nat) (p : α → Bool) :
    ∀ (l : List α), selMin key p l = none → ∀ s ∈ l, p s = false := by
  intro l
  induction l with
  | nil => intro _ s hs; simp at hs
  | cons a l ih =>
    intro h s hs
    cases hsel : selMin key p l with
    | none =>
      simp only [selMin, hsel] at h
      by_cases hpa : p a = true
      · simp [hpa] at h
      · rcases List.mem_cons.mp hs with rfl | hmem
        · exact Bool.eq_false_iff.mpr hpa
        · exact ih hsel s hmem
    | some b =>
      simp only [selMin, hsel] at h
      by_cases hpa : p a = true
      · rw [if_pos hpa] at h
        split at h <;> cases h
      · rw [if_neg hpa] at h
        cases h

theorem selMin_some {α : Type} (key : α → Nat) (p : α → Bool) :
    ∀ (l : List α) (r : α), selMin key p l = some r →
      r ∈ l ∧ p r = true ∧ ∀ s ∈ l, p s = true → key r ≤ key s := by
  intro l
  induction l with
  | nil => intro r h; simp [selMin] at h
  | cons a l ih =>
    intro r h
    cases hsel : selMin key p l with
    | none =>
      simp only [selMin, hsel] at h
      by_cases hpa : p a = true
      · rw [if_pos hpa] at h
        injection h with h
        subst h
        refine ⟨List.mem_cons_self a l, hpa, ?_⟩
        intro s hs hps
        rcases List.mem_cons.mp hs with rfl | hmem
        · exact le_refl _
        · rw [selMin_none key p l hsel s hmem] at hps
          exact absurd hps (by simp)
      · rw [if_neg hpa] at h
        cases h
    | some b =>
      simp only [selMin, hsel] at h
      obtain ⟨hbmem, hpb, hbmin⟩ := ih b hsel
      by_cases hpa : p a = true
      · rw [if_pos hpa] at h
        by_cases hab : key a ≤ key b
        · rw [if_pos hab] at h
          injection h with h
          subst h
          refine ⟨List.mem_cons_self a l, hpa, ?_⟩
          intro s hs hps
          rcases List.mem_cons.mp hs with rfl | hmem
          · exact le_refl _
          · exact le_trans hab (hbmin s hmem hps)
        · rw [if_neg hab] at h
          injection h with h
          subst h
          refine ⟨List.mem_cons_of_mem a hbmem, hpb, ?_⟩
          intro s hs hps
          rcases List.mem_cons.mp hs with rfl | hmem
          · exact le_of_not_le hab
          · exact hbmin s hmem hps
      · rw [if_neg hpa] at h
        injection h with h
        subst h
        refine ⟨List.mem_cons_of_mem a hbmem, hpb, ?_⟩
        intro s hs hps
        rcases List.mem_cons.mp hs with rfl | hmem
        · exact absurd hps hpa
        · exact hbmin s hmem hps

theorem claimAt_some {α : Type} (key : α → Nat) (p : α → Bool) (f : α → α)
    (sel upd : List α) (r : α) (h : (claimAt key p f sel upd).1 = some r) :
    selMin key p sel = some r ∧
    condCount key (key r) p upd = 1 ∧
    (claimAt key p f sel upd).2 = condUpd key (key r) p f upd := by
  cases hsel : selMin key p sel with
  | none => simp [claimAt, hsel] at h
  | some b =>
    by_cases hc : condCount key (key b) p upd = 1
    · have h' : (some b : Option α) = some r := by
        simpa [claimAt, hsel, hc] using h
      injection h' with h'
      subst h'
      refine ⟨?_, hc, by simp [claimAt, hsel, hc]⟩
      first
      | exact hsel
      | rfl
    · simp [claimAt, hsel, hc] at h

theorem claimAt_none_of_count_ne_one {α : Type} (key : α → Nat) (p : α → Bool)
    (f : α → α) (sel upd : List α) (r : α)
    (hsel : selMin key p sel = some r)
    (hc : condCount key (key r) p upd ≠ 1) :
    (claimAt key p f sel upd).1 = none := by
  simp [claimAt, hsel, hc]

theorem claimAt_none_of_no_eligible {α : Type} (key : α → Nat) (p : α → Bool)
    (f : α → α) (sel upd : List α) (h : ∀ s ∈ sel, p s = false) :
    claimAt key p f sel upd = (none, upd) := by
  cases hsel : selMin key p sel with
  | none => simp [claimAt, hsel]
  | some b =>
    obtain ⟨hmem, hpb, _⟩ := selMin_some key p sel b hsel
    rw [h b hmem] at hpb
    exact absurd hpb (by simp)

theorem condUpd_mem {α : Type} (key : α → Nat) (i : Nat) (p : α → Bool)
    (f : α → α) (l : List α) (a : α) (h : a ∈ condUpd key i p f l) :
    ∃ b, b ∈ l ∧ ((key b = i ∧ p b = true ∧ a = f b) ∨
                  (¬ (key b = i ∧ p b = true) ∧ a = b)) := by
  obtain ⟨b, hb, hab⟩ := List.mem_map.mp h
  by_cases hc : key b = i ∧ p b = true
  · exact ⟨b, hb, Or.inl ⟨hc.1, hc.2, by rw [← hab, if_pos hc]⟩⟩
  · exact ⟨b, hb, Or.inr ⟨hc, by rw [← hab, if_neg hc]⟩⟩

theorem condUpd_updated_mem {α : Type} (key : α → Nat) (p : α → Bool)
    (f : α → α) (l : List α) (r : α) (hmem : r ∈ l) (hp : p r = true) :
    f r ∈ condUpd key (key r) p f l := by
  unfold condUpd
  have hfr : f r = (fun b => if key b = key r ∧ p b = true then f b else b) r := by
    simp [hp]
  rw [hfr]
  exact List.mem_map_of_mem _ hmem

theorem claimAt_seq_exclusive {α : Type} (key : α → Nat) (p : α → Bool)
    (f : α → α) (hf : ∀ a, p (f a) = false)
    (db : List α) (hnd : (db.map key).Nodup) (r r' : α)
    (h1 : (claimAt key p f db db).1 = some r)
    (h2 : (claimAt key p f (claimAt key p f db db).2
            (claimAt key p f db db).2).1 = some r') :
    key r' ≠ key r := by
  obtain ⟨hsel1, hc1, hdb'⟩ := claimAt_some key p f db db r h1
  obtain ⟨hr_mem, hpr, _⟩ := selMin_some key p db r hsel1
  obtain ⟨hsel2, _, _⟩ := claimAt_some key p f _ _ r' h2
  rw [hdb'] at hsel2
  obtain ⟨hr'_mem, hpr', _⟩ := selMin_some key p _ r' hsel2
  intro hkey
  obtain ⟨b, hb_mem, hcases⟩ := condUpd_mem key (key r) p f db r' hr'_mem
  rcases hcases with ⟨hkb, hpb, hfb⟩ | ⟨hnc, hrb⟩
  · rw [hfb, hf b] at hpr'
    exact absurd hpr' (by simp)
  · have hkbr : key b = key r := by rw [← hrb, hkey]
    have hbr : b = r := List.inj_on_of_nodup_map hnd hb_mem hr_mem hkbr
    subst hbr
    exact hnc ⟨hkbr, hpr⟩

theorem ensure_unique_slug_from_fresh (dbSlugs fsNames : List String)
    (base : String) :
    ∀ (fuel : Nat) (slug : String) (i : Nat) (s : String),
      ensure_unique_slug_from dbSlugs fsNames base slug i fuel = some s →
      ¬ dbSlugs.contains s ∧ ¬ fsNames.contains s := by
  intro fuel
  induction fuel with
  | zero => intro slug i s h; simp [ensure_unique_slug_from] at h
  | succ n ih =>
    intro slug i s h
    rw [ensure_unique_slug_from] at h
    by_cases hc : ¬ dbSlugs.contains slug ∧ ¬ fsNames.contains slug
    · rw [if_pos hc] at h
      cases h
      exact hc
    · rw [if_neg hc] at h
      exact ih _ _ _ h

/-- C1: for both claim operations (jobs: `Worker._claim_next_job`; outbox:
`Mailer._claim`), a returned row is the oldest-by-id eligible row
(status queued, and for the outbox `send_after <= now`) as seen by the
SELECT, the conditional UPDATE affected exactly one row and the resulting
table is exactly that conditional update (so the returned row really was
transitioned to the in-progress status); if the conditional update affects
zero rows, or no eligible row exists, the operation returns nothing; and
since `BEGIN IMMEDIATE` serializes claimers, sequential composition of two
claims never hands the same row to both, so at most one claimer receives a
given row. -/
theorem atomic_claim_spec :
    (∀ (sel upd : List JobRow) (r : JobRow),
        (claim_next_job_at sel upd).1 = some r →
        r ∈ sel ∧ r.status = JStatus.queued ∧
        (∀ s ∈ sel, s.status = JStatus.queued → r.id ≤ s.id) ∧
        condCount JobRow.id r.id jobEligible upd = 1 ∧
        (claim_next_job_at sel upd).2 =
          condUpd JobRow.id r.id jobEligible jobClaimUpd upd ∧
        (r ∈ upd →
          { r with status := JStatus.downloading } ∈ (claim_next_job_at sel upd).2)) ∧
    (∀ (sel upd : List JobRow) (r : JobRow),
        selMin JobRow.id jobEligible sel = some r →
        condCount JobRow.id r.id jobEligible upd ≠ 1 →
        (claim_next_job_at sel upd).1 = none) ∧
    (∀ (sel upd : List JobRow),
        (∀ s ∈ sel, s.status ≠ JStatus.queued) →
        claim_next_job_at sel upd = (none, upd)) ∧
    (∀ (db : List JobRow) (r r' : JobRow),
        (db.map JobRow.id).Nodup →
        (claim_next_job db).1 = some r →
        (claim_next_job (claim_next_job db).2).1 = some r' →
        r'.id ≠ r.id) ∧
    (∀ (now : Rat) (sel upd : List OutboxRow) (m : OutboxRow),
        (mailer_claim_at now sel upd).1 = some m →
        m ∈ sel ∧ m.status = OStatus.queued ∧ m.send_after ≤ now ∧
        (∀ s ∈ sel, s.status = OStatus.queued → s.send_after ≤ now →
          m.id ≤ s.id) ∧
        condCount OutboxRow.id m.id (outboxEligible now) upd = 1 ∧
        (mailer_claim_at now sel upd).2 =
          condUpd OutboxRow.id m.id (outboxEligible now) (outboxClaimUpd now) upd ∧
        (m ∈ upd →
          { m with status := OStatus.sending, updated_at := now } ∈
            (mailer_claim_at now sel upd).2)) ∧
    (∀ (now : Rat) (sel upd : List OutboxRow) (m : OutboxRow),
        selMin OutboxRow.id (outboxEligible now) sel = some m →
        condCount OutboxRow.id m.id (outboxEligible now) upd ≠ 1 →
        (mailer_claim_at now sel upd).1 = none) ∧
    (∀ (now : Rat) (sel upd : List OutboxRow),
        (∀ s ∈ sel, ¬ (s.status = OStatus.queued ∧ s.send_after ≤ now)) →
        mailer_claim_at now sel upd = (none, upd)) ∧
    (∀ (now : Rat) (db : List OutboxRow) (m m' : OutboxRow),
        (db.map OutboxRow.id).Nodup →
        (mailer_claim now db).1 = some m →
        (mailer_claim now (mailer_claim now db).2).1 = some m' →
        m'.id ≠ m.id) := by
  refine ⟨?_, ?_, ?_, ?_, ?_, ?_, ?_, ?_⟩
  · intro sel upd r h
    obtain ⟨hsel, hc, hdb⟩ :=
      claimAt_some JobRow.id jobEligible jobClaimUpd sel upd r h
    obtain ⟨hmem, hp, hmin⟩ := selMin_some JobRow.id jobEligible sel r hsel
    have hq : r.status = JStatus.queued := by
      simpa [jobEligible] using hp
    refine ⟨hmem, hq, ?_, hc, hdb, ?_⟩
    · intro s hs hsq
      exact hmin s hs (by simp [jobEligible, hsq])
    · intro hru
      simp only [claim_next_job_at]
      rw [hdb]
      exact condUpd_updated_mem JobRow.id jobEligible jobClaimUpd upd r hru hp
  · intro sel upd r hsel hc
    exact claimAt_none_of_count_ne_one JobRow.id jobEligible jobClaimUpd
      sel upd r hsel hc
  · intro sel upd h
    exact claimAt_none_of_no_eligible JobRow.id jobEligible jobClaimUpd sel upd
      (fun s hs => by simp [jobEligible, h s hs])
  · intro db r r' hnd h1 h2
    exact claimAt_seq_exclusive JobRow.id jobEligible jobClaimUpd
      (fun a => by simp [jobEligible, jobClaimUpd]) db hnd r r' h1 h2
  · intro now sel upd m h
    obtain ⟨hsel, hc, hdb⟩ :=
      claimAt_some OutboxRow.id (outboxEligible now) (outboxClaimUpd now)
        sel upd m h
    obtain ⟨hmem, hp, hmin⟩ :=
      selMin_some OutboxRow.id (outboxEligible now) sel m hsel
    have hq : m.status = OStatus.queued ∧ m.send_after ≤ now := by
      simpa [outboxEligible] using hp
    refine ⟨hmem, hq.1, hq.2, ?_, hc, hdb, ?_⟩
    · intro s hs hsq hss
      exact hmin s hs (by simp [outboxEligible, hsq, hss])
    · intro hmu
      simp only [mailer_claim_at]
      rw [hdb]
      exact condUpd_updated_mem OutboxRow.id (outboxEligible now)
        (outboxClaimUpd now) upd m hmu hp
  · intro now sel upd m hsel hc
    exact claimAt_none_of_count_ne_one OutboxRow.id (outboxEligible now)
      (outboxClaimUpd now) sel upd m hsel hc
  · intro now sel upd h
    refine claimAt_none_of_no_eligible OutboxRow.id (outboxEligible now)
      (outboxClaimUpd now) sel upd (fun s hs => ?_)
    have := h s hs
    simp only [outboxEligible]
    by_cases h1 : s.status = OStatus.queued
    · have h2 : ¬ s.send_after ≤ now := fun h2 => this ⟨h1, h2⟩
      simp [h1, h2]
    · simp [h1]
  · intro now db m m' hnd h1 h2
    exact claimAt_seq_exclusive OutboxRow.id (outboxEligible now)
      (outboxClaimUpd now)
      (fun a => by simp [outboxEligible, outboxClaimUpd]) db hnd m m' h1 h2

/-- Witness for C1: on a two-row queued table, the first claim hands out
row 1 and a second claim on the resulting table hands out row 2, for both
the jobs and the outbox claim operations. -/
theorem atomic_claim_witness :
    (mkJob 2 JStatus.queued).id ≠ (mkJob 1 JStatus.queued).id ∧
    (mkMsg 2 OStatus.queued 0).id ≠ (mkMsg 1 OStatus.queued 0).id := by
  constructor
  · exact atomic_claim_spec.2.2.2.1
      [mkJob 1 JStatus.queued, mkJob 2 JStatus.queued]
      (mkJob 1 JStatus.queued) (mkJob 2 JStatus.queued)
      (by decide) (by decide) (by decide)
  · exact atomic_claim_spec.2.2.2.2.2.2.2 1
      [mkMsg 1 OStatus.queued 0, mkMsg 2 OStatus.queued 0]
      (mkMsg 1 OStatus.queued 0) (mkMsg 2 OStatus.queued 0)
      (by decide) (by decide) (by decide)

theorem backoff_jitter_bounds (d : Nat) (r : Rat) (h0 : 0 ≤ r) (h1 : r < 1) :
    -((d : Rat) / 10) ≤ backoff_jitter d r ∧ backoff_jitter d r ≤ (d : Rat) / 10 := by
  have hd : (0 : Rat) ≤ (d : Rat) := by positivity
  unfold backoff_jitter
  constructor <;> nlinarith

theorem mailer_fail_send_after_bounds (base maxSec attempts : Nat)
    (now r : Rat) (h0 : 0 ≤ r) (h1 : r < 1) :
    now + (backoff_delay base maxSec attempts : Rat)
        - (backoff_delay base maxSec attempts : Rat) / 10 - 1
      < ((fail_send_after base maxSec attempts now r : Int) : Rat) ∧
    ((fail_send_after base maxSec attempts now r : Int) : Rat)
      ≤ now + (backoff_delay base maxSec attempts : Rat)
        + (backoff_delay base maxSec attempts : Rat) / 10 := by
  obtain ⟨hjl, hju⟩ :=
    backoff_jitter_bounds (backoff_delay base maxSec attempts) r h0 h1
  unfold fail_send_after
  constructor
  · have hfl := Int.sub_one_lt_floor
      (now + (backoff_delay base maxSec attempts : Rat) +
        backoff_jitter (backoff_delay base maxSec attempts) r)
    linarith
  · have hfu := Int.floor_le
      (now + (backoff_delay base maxSec attempts : Rat) +
        backoff_jitter (backoff_delay base maxSec attempts) r)
    linarith

/-- Counterexample for C4: a rate-limit defer of a fresh message
(attempts 0, send_after 0) at time 1000 reschedules `send_after` to 1030
(now + the 30-second backoff for attempts=0), so `send_after` is NOT left
unchanged. -/
theorem rate_limit_defer_counterexample :
    (mkMsg 1 OStatus.queued 0).attempts = 0 ∧
    (mkMsg 1 OStatus.queued 0).send_after = 0 ∧
    (rate_limit_defer (mkMsg 1 OStatus.queued 0) 1000 (1 / 2)).send_after = 1030 ∧
    (rate_limit_defer (mkMsg 1 OStatus.queued 0) 1000 (1 / 2)).send_after ≠
      (mkMsg 1 OStatus.queued 0).send_after := by
  have hsa : (rate_limit_defer (mkMsg 1 OStatus.queued 0) 1000 (1 / 2)).send_after
      = 1030 := by
    simp only [rate_limit_defer, mailer_fail, mkMsg]
    norm_num [fail_send_after, backoff_jitter, backoff_delay,
      RETRY_BASE_SEC, RETRY_MAX_SEC]
  have hold : (mkMsg 1 OStatus.queued 0).send_after = 0 := rfl
  refine ⟨rfl, rfl, hsa, ?_⟩
  rw [hsa, hold]
  norm_num

/-- C4 (amended): a token-bucket denial requeues the claimed message with
status 'queued' and attempts unchanged (the defer is not counted as a
delivery failure), but — unlike the claim — `send_after` is rescheduled to
now + the backoff delay computed from the unchanged attempts value, within
±10% jitter (and one second of strftime truncation), and the defer message
is recorded in last_error. -/
theorem rate_limit_defer_spec :
    ∀ (item : OutboxRow) (now r : Rat), 0 ≤ r → r < 1 →
      (rate_limit_defer item now r).status = OStatus.queued ∧
      (rate_limit_defer item now r).attempts = item.attempts ∧
      (rate_limit_defer item now r).last_error =
        some (String.take "rate-limit defer" 500) ∧
      now + (backoff_delay RETRY_BASE_SEC RETRY_MAX_SEC item.attempts : Rat)
          - (backoff_delay RETRY_BASE_SEC RETRY_MAX_SEC item.attempts : Rat) / 10 - 1
        < (rate_limit_defer item now r).send_after ∧
      (rate_limit_defer item now r).send_after
        ≤ now + (backoff_delay RETRY_BASE_SEC RETRY_MAX_SEC item.attempts : Rat)
          + (backoff_delay RETRY_BASE_SEC RETRY_MAX_SEC item.attempts : Rat) / 10 := by
  intro item now r h0 h1
  obtain ⟨hl, hu⟩ := mailer_fail_send_after_bounds RETRY_BASE_SEC RETRY_MAX_SEC
    item.attempts now r h0 h1
  exact ⟨rfl, rfl, rfl, hl, hu⟩

/-- Witness for C4's amended theorem at a concrete defer. -/
theorem rate_limit_defer_witness :
    (rate_limit_defer (mkMsg 1 OStatus.queued 0) 1000 (1 / 2)).attempts =
      (mkMsg 1 OStatus.queued 0).attempts ∧
    (rate_limit_defer (mkMsg 1 OStatus.queued 0) 1000 (1 / 2)).status =
      OStatus.queued :=
  ⟨(rate_limit_defer_spec (mkMsg 1 OStatus.queued 0) 1000 (1 / 2)
      (by norm_num) (by norm_num)).2.1,
   (rate_limit_defer_spec (mkMsg 1 OStatus.queued 0) 1000 (1 / 2)
      (by norm_num) (by norm_num)).1⟩

/-- Counterexample for C5: the loop passes `item["attempts"] + 1` into the
backoff formula, so the FIRST failure of a fresh message (attempts 0) is
delayed 60 seconds, not 30: at now=0 with zero jitter draw, send_after
becomes 60, outside the claimed 30±10% band [27, 33]. -/
theorem backoff_growth_counterexample :
    (mkMsg 1 OStatus.queued 0).attempts = 0 ∧
    (send_failure (mkMsg 1 OStatus.queued 0) "boom" 0 (1 / 2)).send_after = 60 ∧
    ¬ ((send_failure (mkMsg 1 OStatus.queued 0) "boom" 0 (1 / 2)).send_after
        ≤ 0 + 30 + 30 / 10) := by
  have hsa : (send_failure (mkMsg 1 OStatus.queued 0) "boom" 0 (1 / 2)).send_after
      = 60 := by
    simp only [send_failure, mailer_fail, mkMsg]
    norm_num [fail_send_after, backoff_jitter, backoff_delay,
      RETRY_BASE_SEC, RETRY_MAX_SEC]
  refine ⟨rfl, hsa, ?_⟩
  rw [hsa]
  norm_num

/-- C5 (amended): every send failure increments attempts by one, reverts
status to 'queued', records the truncated error, and sets
`send_after = now + min(3600, 30 * 2^min(newAttempts, 8))` within ±10%
jitter (and one second of truncation) — where `newAttempts` is the
incremented count, so the successive delays of one message escalate as
60, 120, 240, 480, 960, 1920 and are then capped at 3600 seconds. -/
theorem backoff_growth_spec :
    (∀ (item : OutboxRow) (msg : String) (now r : Rat), 0 ≤ r → r < 1 →
      (send_failure item msg now r).attempts = item.attempts + 1 ∧
      (send_failure item msg now r).status = OStatus.queued ∧
      (send_failure item msg now r).last_error = some (String.take msg 500) ∧
      now + (backoff_delay RETRY_BASE_SEC RETRY_MAX_SEC (item.attempts + 1) : Rat)
          - (backoff_delay RETRY_BASE_SEC RETRY_MAX_SEC (item.attempts + 1) : Rat) / 10 - 1
        < (send_failure item msg now r).send_after ∧
      (send_failure item msg now r).send_after
        ≤ now + (backoff_delay RETRY_BASE_SEC RETRY_MAX_SEC (item.attempts + 1) : Rat)
          + (backoff_delay RETRY_BASE_SEC RETRY_MAX_SEC (item.attempts + 1) : Rat) / 10) ∧
    (List.range 9).map
        (fun n => backoff_delay RETRY_BASE_SEC RETRY_MAX_SEC (n + 1)) =
      [60, 120, 240, 480, 960, 1920, 3600, 3600, 3600] := by
  constructor
  · intro item msg now r h0 h1
    obtain ⟨hl, hu⟩ := mailer_fail_send_after_bounds RETRY_BASE_SEC
      RETRY_MAX_SEC (item.attempts + 1) now r h0 h1
    exact ⟨rfl, rfl, rfl, hl, hu⟩
  · decide

/-- Witness for C5's amended theorem at a concrete failure. -/
theorem backoff_growth_witness :
    (send_failure (mkMsg 1 OStatus.queued 0) "boom" 0 (1 / 2)).attempts =
      (mkMsg 1 OStatus.queued 0).attempts + 1 ∧
    (send_failure (mkMsg 1 OStatus.queued 0) "boom" 0 (1 / 2)).status =
      OStatus.queued :=
  ⟨(backoff_growth_spec.1 (mkMsg 1 OStatus.queued 0) "boom" 0 (1 / 2)
      (by norm_num) (by norm_num)).1,
   (backoff_growth_spec.1 (mkMsg 1 OStatus.queued 0) "boom" 0 (1 / 2)
      (by norm_num) (by norm_num)).2.1⟩

/-- C6: for any configured rate of at least 1 message/minute and burst of
at least 1 (so the defensive floors in `__init__` are inactive), the token
bucket starts with `burst` tokens, refills lazily at rate_per_minute/60
tokens per elapsed monotonic second capped at `burst`, permits a send
attempt iff at least one token is available after refill — consuming
exactly one token atomically with the check — and with rate=60/min,
burst=10 ten immediate takes succeed while the eleventh within the same
second is denied. -/
theorem token_bucket_spec :
    ∀ (rpm burst : Nat) (t0 : Rat), 1 ≤ rpm → 1 ≤ burst →
      (TokenBucket.init rpm burst t0).tokens = (burst : Rat) ∧
      (TokenBucket.init rpm burst t0).burst = (burst : Rat) ∧
      (TokenBucket.init rpm burst t0).rate = (rpm : Rat) / 60 ∧
      (TokenBucket.init rpm burst t0).t = t0 ∧
      (∀ (tb : TokenBucket) (now : Rat),
        ((tb.take now).1 = true ↔
          1 ≤ min tb.burst (tb.tokens + (now - tb.t) * tb.rate)) ∧
        ((tb.take now).1 = true →
          (tb.take now).2.tokens =
            min tb.burst (tb.tokens + (now - tb.t) * tb.rate) - 1) ∧
        ((tb.take now).1 = false →
          (tb.take now).2.tokens =
            min tb.burst (tb.tokens + (now - tb.t) * tb.rate)) ∧
        (tb.take now).2.t = now ∧
        (tb.take now).2.burst = tb.burst ∧
        (tb.take now).2.rate = tb.rate) ∧
      takeSeq (TokenBucket.init 60 10 0) (List.replicate 11 0) =
        List.replicate 10 true ++ [false] := by
  intro rpm burst t0 hr hb
  have hb' : max 1 burst = burst := Nat.max_eq_right hb
  have hr' : (1 : Rat) ≤ (rpm : Rat) := by exact_mod_cast hr
  have hrate : max (1 / 1000 : Rat) ((rpm : Rat) / 60) = (rpm : Rat) / 60 :=
    max_eq_right (by linarith)
  refine ⟨?_, ?_, ?_, rfl, ?_, ?_⟩
  · show ((max 1 burst : Nat) : Rat) = (burst : Rat)
    rw [max_eq_right hb]
  · show ((max 1 burst : Nat) : Rat) = (burst : Rat)
    rw [max_eq_right hb]
  · show max (1 / 1000 : Rat) ((rpm : Rat) / 60) = (rpm : Rat) / 60
    exact hrate
  · intro tb now
    unfold TokenBucket.take
    by_cases h : 1 ≤ min tb.burst (tb.tokens + (now - tb.t) * tb.rate)
    · simp [h]
    · simp [h]
  · norm_num [takeSeq, TokenBucket.take, TokenBucket.init, List.replicate]

/-- Witness for C6 at the configured rate=60/min, burst=10 instance. -/
theorem token_bucket_witness :
    (TokenBucket.init 60 10 0).tokens = (10 : Rat) ∧
    takeSeq (TokenBucket.init 60 10 0) (List.replicate 11 0) =
      List.replicate 10 true ++ [false] :=
  ⟨(token_bucket_spec 60 10 0 (by decide) (by decide)).1,
   (token_bucket_spec 60 10 0 (by decide) (by decide)).2.2.2.2.2⟩

theorem countEnqueues_append (l1 l2 : List MailAct) :
    countEnqueues (l1 ++ l2) = countEnqueues l1 + countEnqueues l2 := by
  simp [countEnqueues, List.filter_append]

theorem countEnqueues_map_send (l : List String) :
    countEnqueues (l.map MailAct.sendAttempt) = 0 := by
  induction l with
  | nil => rfl
  | cons a l ih => simp [countEnqueues, List.filter, ih]

theorem countSendAttempts_append (l1 l2 : List MailAct) :
    countSendAttempts (l1 ++ l2) =
      countSendAttempts l1 + countSendAttempts l2 := by
  simp [countSendAttempts, List.filter_append]

theorem countSendAttempts_map_send (l : List String) :
    countSendAttempts (l.map MailAct.sendAttempt) = l.length := by
  induction l with
  | nil => rfl
  | cons a l ih => simpa [countSendAttempts, List.filter] using ih

/-- Counterexample for C3: with auto-delivery enabled, SMTP configured
and one intended recipient, the completion path creates ZERO outbox rows
(it does not enqueue one per recipient as claimed). -/
theorem notify_enqueues_counterexample :
    (intended_recipients c3Settings).length = 1 ∧
    countEnqueues (maybe_notify c3Settings) = 0 ∧
    countEnqueues (maybe_notify c3Settings) ≠
      (intended_recipients c3Settings).length := by
  refine ⟨?_, ?_, ?_⟩ <;> decide

/-- C3 (amended): on completion with auto-delivery enabled (and SMTP
configured and a non-empty recipient list), the pipeline performs one
DIRECT synchronous email send per intended recipient — the deduplicated
group-then-main list — rather than enqueuing outbox rows; no path of the
completion notification ever inserts an outbox row; and with
auto-delivery disabled it appends a log entry saying manual delivery is
required. -/
theorem notify_direct_send_spec :
    (∀ (s : MailSettings),
      s.auto_send_email = true →
      intended_recipients s ≠ [] →
      ¬ s.smtp_host = "" →
      ¬ s.smtp_sender = "" →
      countSendAttempts (maybe_notify s) = (intended_recipients s).length ∧
      countEnqueues (maybe_notify s) = 0) ∧
    (∀ (s : MailSettings),
      s.auto_send_email = false →
      maybe_notify s =
        [MailAct.logMsg
          "Auto-send disabled (AUTO_SEND_EMAIL=0). Use Send mail button."]) ∧
    (∀ (s : MailSettings), countEnqueues (maybe_notify s) = 0) := by
  have hnotify : ∀ (s : MailSettings), countEnqueues (notify_recipients s) = 0 := by
    intro s
    unfold notify_recipients
    by_cases he : (intended_recipients s).isEmpty
    · simp [he, countEnqueues, List.filter]
    · by_cases hs : s.smtp_host.isEmpty || s.smtp_sender.isEmpty
      · simp [he, hs, countEnqueues, List.filter]
      · simp only [he, hs, Bool.false_eq_true, if_false, if_neg]
        rw [countEnqueues_append, countEnqueues_map_send]
        simp [countEnqueues, List.filter]
  refine ⟨?_, ?_, ?_⟩
  · intro s hauto hrecs hhost hsender
    have he : (intended_recipients s).isEmpty = false := by
      cases hr : intended_recipients s with
      | nil => exact absurd hr hrecs
      | cons a l => simp
    have hh : s.smtp_host.isEmpty = false := by
      cases hv : s.smtp_host.isEmpty
      · rfl
      · exact absurd ((String.isEmpty_iff s.smtp_host).mp hv) hhost
    have hd : s.smtp_sender.isEmpty = false := by
      cases hv : s.smtp_sender.isEmpty
      · rfl
      · exact absurd ((String.isEmpty_iff s.smtp_sender).mp hv) hsender
    constructor
    · unfold maybe_notify
      rw [if_pos hauto]
      unfold notify_recipients
      simp only [he, hh, hd, Bool.false_eq_true, if_false, Bool.or_self]
      rw [countSendAttempts_append, countSendAttempts_map_send]
      simp [countSendAttempts, List.filter]
    · unfold maybe_notify
      rw [if_pos hauto]
      exact hnotify s
  · intro s hauto
    unfold maybe_notify
    rw [if_neg (by simp [hauto])]
  · intro s
    unfold maybe_notify
    by_cases hauto : s.auto_send_email = true
    · rw [if_pos hauto]
      exact hnotify s
    · rw [if_neg hauto]
      simp [countEnqueues, List.filter]

/-- Witness for C3's amended theorem at the concrete one-recipient
configuration. -/
theorem notify_direct_send_witness :
    countSendAttempts (maybe_notify c3Settings) =
      (intended_recipients c3Settings).length ∧
    countEnqueues (maybe_notify c3Settings) = 0 :=
  notify_direct_send_spec.1 c3Settings (by decide) (by decide)
    (by decide) (by decide)

theorem jstate_set_status_eq (s : JState) (st : JStatus) (h : s.status = st) :
    ({ s with status := st } : JState) = s := by
  cases s
  cases h
  rfl

theorem runPhase_aborted_of_canceled (scale : Rat → Rat) :
    ∀ (evs : List PEv) (s : JState), s.status = JStatus.canceled →
      (∃ f, PEv.prog f ∈ evs) →
      runPhase scale s evs = (s, [], true) := by
  intro evs
  induction evs with
  | nil =>
    intro s _ h
    obtain ⟨f, hf⟩ := h
    simp at hf
  | cons e evs ih =>
    intro s hs h
    obtain ⟨f, hf⟩ := h
    cases e with
    | cancel =>
      have hset : ({ s with status := JStatus.canceled } : JState) = s :=
        jstate_set_status_eq s JStatus.canceled hs
      have hf' : PEv.prog f ∈ evs := by
        rcases List.mem_cons.mp hf with h1 | h2
        · cases h1
        · exact h2
      simp only [runPhase, hset]
      exact ih s hs ⟨f, hf'⟩
    | prog g =>
      simp only [runPhase, if_pos hs]

theorem runPhase_clean (scale : Rat → Rat) :
    ∀ (evs : List PEv) (s : JState), s.status ≠ JStatus.canceled →
      noCancel evs →
      (runPhase scale s evs).2.2 = false ∧
      (runPhase scale s evs).1.status = s.status ∧
      (runPhase scale s evs).1.error = s.error ∧
      (runPhase scale s evs).1.media_path = s.media_path ∧
      (runPhase scale s evs).1.txt_path = s.txt_path := by
  intro evs
  induction evs with
  | nil =>
    intro s hs _
    simp [runPhase]
  | cons e evs ih =>
    intro s hs hnc
    cases e with
    | cancel => exact absurd rfl (hnc PEv.cancel (List.mem_cons_self _ _))
    | prog g =>
      have hnc' : noCancel evs := fun e he => hnc e (List.mem_cons_of_mem _ he)
      simp only [runPhase, if_neg hs]
      simpa using ih { s with progress := scale g } hs hnc'

theorem runPhase_acts (scale : Rat → Rat) :
    ∀ (evs : List PEv) (s : JState) (a : Act),
      a ∈ (runPhase scale s evs).2.1 →
      ∃ f, PEv.prog f ∈ evs ∧ a = Act.updProgress (scale f) := by
  intro evs
  induction evs with
  | nil =>
    intro s a ha
    simp [runPhase] at ha
  | cons e evs ih =>
    intro s a ha
    cases e with
    | cancel =>
      simp only [runPhase] at ha
      obtain ⟨f, hf, hfa⟩ := ih _ a ha
      exact ⟨f, List.mem_cons_of_mem _ hf, hfa⟩
    | prog g =>
      by_cases hs : s.status = JStatus.canceled
      · simp [runPhase, hs] at ha
      · simp only [runPhase, if_neg hs, List.mem_cons] at ha
        rcases ha with rfl | ha
        · exact ⟨g, List.mem_cons_self _ _, rfl⟩
        · obtain ⟨f, hf, hfa⟩ := ih _ a ha
          exact ⟨f, List.mem_cons_of_mem _ hf, hfa⟩

theorem runPhase_cancel_checkpoint (scale : Rat → Rat) :
    ∀ (pre : List PEv) (s : JState) (mid post : List PEv) (f : Rat),
      (runPhase scale s
        (pre ++ PEv.cancel :: (mid ++ PEv.prog f :: post))).2.2 = true ∧
      (runPhase scale s
        (pre ++ PEv.cancel :: (mid ++ PEv.prog f :: post))).1.status =
        JStatus.canceled ∧
      (runPhase scale s
        (pre ++ PEv.cancel :: (mid ++ PEv.prog f :: post))).1.error =
        s.error := by
  intro pre
  induction pre with
  | nil =>
    intro s mid post f
    have habort := runPhase_aborted_of_canceled scale
      (mid ++ PEv.prog f :: post) { s with status := JStatus.canceled }
      rfl ⟨f, by simp⟩
    simp only [List.nil_append, runPhase, habort]
    simp
  | cons e pre ih =>
    intro s mid post f
    cases e with
    | cancel =>
      simp only [List.cons_append, runPhase]
      exact ih { s with status := JStatus.canceled } mid post f
    | prog g =>
      by_cases hs : s.status = JStatus.canceled
      · simp only [List.cons_append, runPhase, if_pos hs]
        simp [hs]
      · simp only [List.cons_append, runPhase, if_neg hs]
        simpa using ih { s with progress := scale g } mid post f

theorem runTranscribe_aborted (s : JState) (trEvs : List PEv) (trEnd : PEnd)
    (up : Bool) (fm tp : String)
    (h : (runPhase trScale s trEvs).2.2 = true) :
    runTranscribe s trEvs trEnd up fm tp =
      ((runPhase trScale s trEvs).1,
       Act.invokeTr :: (runPhase trScale s trEvs).2.1) := by
  simp [runTranscribe, h]

theorem runTranscribe_clean_ok (s : JState) (trEvs : List PEv)
    (up : Bool) (fm tp : String)
    (hs : s.status ≠ JStatus.canceled) (hnc : noCancel trEvs) :
    (runTranscribe s trEvs PEnd.ok up fm tp).1.status = JStatus.done ∧
    (runTranscribe s trEvs PEnd.ok up fm tp).1.txt_path = some tp ∧
    (runTranscribe s trEvs PEnd.ok up fm tp).1.media_path =
      (if up then some fm else none) ∧
    (runTranscribe s trEvs PEnd.ok up fm tp).1.progress = 100 := by
  have hcl := runPhase_clean trScale trEvs s hs hnc
  simp [runTranscribe, hcl.1, finalizeDone]

theorem runTranscribe_acts (s : JState) (trEvs : List PEv) (trEnd : PEnd)
    (up : Bool) (fm tp : String) (a : Act)
    (ha : a ∈ (runTranscribe s trEvs trEnd up fm tp).2) :
    a = Act.invokeTr ∨
    (∃ f, PEv.prog f ∈ trEvs ∧ a = Act.updProgress (trScale f)) ∨
    (∃ m, trEnd = PEnd.fail m ∧ a = Act.updError m) ∨
    (∃ m, a = Act.updDone tp m) := by
  by_cases hab : (runPhase trScale s trEvs).2.2 = true
  · rw [runTranscribe_aborted s trEvs trEnd up fm tp hab] at ha
    rcases List.mem_cons.mp ha with rfl | ha
    · exact Or.inl rfl
    · exact Or.inr (Or.inl (runPhase_acts trScale trEvs s a ha))
  · have hab' : (runPhase trScale s trEvs).2.2 = false :=
      Bool.eq_false_iff.mpr hab
    cases trEnd with
    | fail m =>
      simp only [runTranscribe, hab', Bool.false_eq_true, if_false,
        List.mem_cons, List.mem_append, List.mem_singleton] at ha
      rcases ha with rfl | ha | rfl | h0
      · exact Or.inl rfl
      · exact Or.inr (Or.inl (runPhase_acts trScale trEvs s a ha))
      · exact Or.inr (Or.inr (Or.inl ⟨m, rfl, rfl⟩))
      · simp at h0
    | ok =>
      simp only [runTranscribe, hab', Bool.false_eq_true, if_false,
        finalizeDone, List.mem_cons, List.mem_append,
        List.mem_singleton] at ha
      rcases ha with rfl | ha | rfl | h0
      · exact Or.inl rfl
      · exact Or.inr (Or.inl (runPhase_acts trScale trEvs s a ha))
      · exact Or.inr (Or.inr (Or.inr ⟨_, rfl⟩))
      · simp at h0

theorem process_job_dl_cancel (s0 : JState) (uPath dPath tPath : String)
    (dlEvs : List PEv) (dlEnd : PEnd) (trEvs : List PEv) (trEnd : PEnd)
    (hctp : cancelThenCheckpoint dlEvs) :
    (process_job s0 false uPath dPath tPath dlEvs dlEnd trEvs trEnd).1.status
      = JStatus.canceled ∧
    (process_job s0 false uPath dPath tPath dlEvs dlEnd trEvs trEnd).1.error
      = s0.error ∧
    (∀ m, Act.updError m ∉
      (process_job s0 false uPath dPath tPath dlEvs dlEnd trEvs trEnd).2) ∧
    (∀ t m, Act.updDone t m ∉
      (process_job s0 false uPath dPath tPath dlEvs dlEnd trEvs trEnd).2) := by
  obtain ⟨pre, mid, post, f, rfl⟩ := hctp
  have hD := runPhase_cancel_checkpoint dlScale pre
    { s0 with progress := 0 } mid post f
  have hR : process_job s0 false uPath dPath tPath
      (pre ++ PEv.cancel :: (mid ++ PEv.prog f :: post)) dlEnd trEvs trEnd =
      ((runPhase dlScale { s0 with progress := 0 }
          (pre ++ PEv.cancel :: (mid ++ PEv.prog f :: post))).1,
       Act.updProgress 0 :: Act.invokeDl ::
         (runPhase dlScale { s0 with progress := 0 }
           (pre ++ PEv.cancel :: (mid ++ PEv.prog f :: post))).2.1) := by
    simp [process_job, hD.1]
  rw [hR]
  refine ⟨hD.2.1, hD.2.2, ?_, ?_⟩
  · intro m hm
    rcases List.mem_cons.mp hm with h1 | h1
    · cases h1
    rcases List.mem_cons.mp h1 with h2 | h2
    · cases h2
    obtain ⟨g, _, hg⟩ := runPhase_acts dlScale _ _ _ h2
    cases hg
  · intro t m hm
    rcases List.mem_cons.mp hm with h1 | h1
    · cases h1
    rcases List.mem_cons.mp h1 with h2 | h2
    · cases h2
    obtain ⟨g, _, hg⟩ := runPhase_acts dlScale _ _ _ h2
    cases hg

theorem process_job_url_ok_eq (s0 : JState) (uPath dPath tPath : String)
    (dlEvs trEvs : List PEv) (trEnd : PEnd)
    (hs : s0.status ≠ JStatus.canceled) (hnc : noCancel dlEvs) :
    process_job s0 false uPath dPath tPath dlEvs PEnd.ok trEvs trEnd =
      ((runTranscribe (trEntryUrl s0 dPath dlEvs) trEvs trEnd
          false dPath tPath).1,
       Act.updProgress 0 :: Act.invokeDl ::
         ((runPhase dlScale { s0 with progress := 0 } dlEvs).2.1 ++
           (Act.updStatusMedia JStatus.transcribing dPath ::
             (runTranscribe (trEntryUrl s0 dPath dlEvs) trEvs trEnd
                false dPath tPath).2))) := by
  have hB := runPhase_clean dlScale dlEvs { s0 with progress := 0 } hs hnc
  simp [process_job, hB.1, trEntryUrl]

theorem process_job_up_eq (s0 : JState) (uPath dPath tPath : String)
    (dlEvs : List PEv) (dlEnd : PEnd) (trEvs : List PEv) (trEnd : PEnd)
    (hs : s0.status ≠ JStatus.canceled) :
    process_job s0 true uPath dPath tPath dlEvs dlEnd trEvs trEnd =
      ((runTranscribe (trEntryUp s0 uPath) trEvs trEnd true uPath tPath).1,
       Act.updProgress 0 ::
         Act.updStatusMedia JStatus.transcribing uPath ::
         (runTranscribe (trEntryUp s0 uPath) trEvs trEnd
            true uPath tPath).2) := by
  simp [process_job, hs, trEntryUp]

theorem process_job_tr_cancel_url (s0 : JState) (uPath dPath tPath : String)
    (dlEvs trEvs : List PEv) (trEnd : PEnd)
    (hs : s0.status ≠ JStatus.canceled) (hnc : noCancel dlEvs)
    (hctp : cancelThenCheckpoint trEvs) :
    (process_job s0 false uPath dPath tPath dlEvs PEnd.ok trEvs trEnd).1.status
      = JStatus.canceled ∧
    (process_job s0 false uPath dPath tPath dlEvs PEnd.ok trEvs trEnd).1.error
      = s0.error ∧
    (∀ m, Act.updError m ∉
      (process_job s0 false uPath dPath tPath dlEvs PEnd.ok trEvs trEnd).2) ∧
    (∀ t m, Act.updDone t m ∉
      (process_job s0 false uPath dPath tPath dlEvs PEnd.ok trEvs trEnd).2) := by
  have hB := runPhase_clean dlScale dlEvs { s0 with progress := 0 } hs hnc
  rw [process_job_url_ok_eq s0 uPath dPath tPath dlEvs trEvs trEnd hs hnc]
  obtain ⟨pre, mid, post, f, rfl⟩ := hctp
  have hD := runPhase_cancel_checkpoint trScale pre
    (trEntryUrl s0 dPath dlEvs) mid post f
  have hrt := runTranscribe_aborted (trEntryUrl s0 dPath dlEvs)
    (pre ++ PEv.cancel :: (mid ++ PEv.prog f :: post)) trEnd
    false dPath tPath hD.1
  rw [hrt]
  have herr : (trEntryUrl s0 dPath dlEvs).error = s0.error := hB.2.2.1
  refine ⟨hD.2.1, hD.2.2.trans herr, ?_, ?_⟩
  · intro m hm
    simp only [List.mem_cons, List.mem_append] at hm
    rcases hm with h1 | h1 | h1 | h1 | h1 | h1
    · cases h1
    · cases h1
    · obtain ⟨g, _, hg⟩ := runPhase_acts dlScale _ _ _ h1
      cases hg
    · cases h1
    · cases h1
    · obtain ⟨g, _, hg⟩ := runPhase_acts trScale _ _ _ h1
      cases hg
  · intro t m hm
    simp only [List.mem_cons, List.mem_append] at hm
    rcases hm with h1 | h1 | h1 | h1 | h1 | h1
    · cases h1
    · cases h1
    · obtain ⟨g, _, hg⟩ := runPhase_acts dlScale _ _ _ h1
      cases hg
    · cases h1
    · cases h1
    · obtain ⟨g, _, hg⟩ := runPhase_acts trScale _ _ _ h1
      cases hg

theorem process_job_tr_cancel_up (s0 : JState) (uPath dPath tPath : String)
    (dlEvs : List PEv) (dlEnd : PEnd) (trEvs : List PEv) (trEnd : PEnd)
    (hs : s0.status ≠ JStatus.canceled)
    (hctp : cancelThenCheckpoint trEvs) :
    (process_job s0 true uPath dPath tPath dlEvs dlEnd trEvs trEnd).1.status
      = JStatus.canceled ∧
    (process_job s0 true uPath dPath tPath dlEvs dlEnd trEvs trEnd).1.error
      = s0.error ∧
    (∀ m, Act.updError m ∉
      (process_job s0 true uPath dPath tPath dlEvs dlEnd trEvs trEnd).2) ∧
    (∀ t m, Act.updDone t m ∉
      (process_job s0 true uPath dPath tPath dlEvs dlEnd trEvs trEnd).2) := by
  rw [process_job_up_eq s0 uPath dPath tPath dlEvs dlEnd trEvs trEnd hs]
  obtain ⟨pre, mid, post, f, rfl⟩ := hctp
  have hD := runPhase_cancel_checkpoint trScale pre
    (trEntryUp s0 uPath) mid post f
  have hrt := runTranscribe_aborted (trEntryUp s0 uPath)
    (pre ++ PEv.cancel :: (mid ++ PEv.prog f :: post)) trEnd
    true uPath tPath hD.1
  rw [hrt]
  have herr : (trEntryUp s0 uPath).error = s0.error := rfl
  refine ⟨hD.2.1, hD.2.2.trans herr, ?_, ?_⟩
  · intro m hm
    simp only [List.mem_cons] at hm
    rcases hm with h1 | h1 | h1 | h1
    · cases h1
    · cases h1
    · cases h1
    · obtain ⟨g, _, hg⟩ := runPhase_acts trScale _ _ _ h1
      cases hg
  · intro t m hm
    simp only [List.mem_cons] at hm
    rcases hm with h1 | h1 | h1 | h1
    · cases h1
    · cases h1
    · cases h1
    · obtain ⟨g, _, hg⟩ := runPhase_acts trScale _ _ _ h1
      cases hg

theorem process_job_up_precheck (s0 : JState) (uPath dPath tPath : String)
    (dlEvs : List PEv) (dlEnd : PEnd) (trEvs : List PEv) (trEnd : PEnd)
    (hs : s0.status = JStatus.canceled) :
    process_job s0 true uPath dPath tPath dlEvs dlEnd trEvs trEnd =
      ({ s0 with progress := 0 }, [Act.updProgress 0]) := by
  simp [process_job, hs]

/-- Counterexample for C7: the claim fails as universally stated.  An
external cancel write that lands after a phase's LAST progress callback
is never observed: the next worker write is the unconditional
`_set(status='transcribing')` (worker.py line 127) or the final
`_set(status='done')` (line 104), which overwrites 'canceled', and every
later `_abort_check` reads the overwritten status.  Concretely, a job
canceled right after the last download progress callback runs to
completion and ends 'done', not 'canceled'. -/
theorem cancel_checkpoint_counterexample :
    (process_job claimedState false "up.mp4" "dl.mp4" "t.txt"
      [PEv.prog 0, PEv.cancel] PEnd.ok [] PEnd.ok).1.status =
      JStatus.done ∧
    (process_job claimedState false "up.mp4" "dl.mp4" "t.txt"
      [PEv.prog 0, PEv.cancel] PEnd.ok [] PEnd.ok).1.status ≠
      JStatus.canceled := by
  have h1 : (process_job claimedState false "up.mp4" "dl.mp4" "t.txt"
      [PEv.prog 0, PEv.cancel] PEnd.ok [] PEnd.ok).1.status =
      JStatus.done := rfl
  refine ⟨h1, ?_⟩
  rw [h1]
  intro h
  cases h

/-- C7 (amended): when a job's status is externally set to 'canceled'
during processing AND the worker reaches a further cancellation
checkpoint while that status is still 'canceled' (the fresh-status
`_abort_check` performed before each progress report), it aborts there
and issues no further database writes: the final status stays
'canceled', it is never overwritten to 'error' or 'done', and no error
message is recorded for the cancellation.  (Without a subsequent
checkpoint the cancel can be clobbered by the unconditional
phase-transition or completion write — see the counterexample.)
Covered: a cancel during the download phase; during the transcription
phase on the url path; during the transcription phase on the
uploaded-media path; and the `_abort_check` performed before the
uploaded-media transition. -/
theorem cancel_checkpoint_spec :
    (∀ (s0 : JState) (uPath dPath tPath : String) (dlEvs : List PEv)
        (dlEnd : PEnd) (trEvs : List PEv) (trEnd : PEnd),
      s0.error = none → cancelThenCheckpoint dlEvs →
      (process_job s0 false uPath dPath tPath dlEvs dlEnd
          trEvs trEnd).1.status = JStatus.canceled ∧
      (process_job s0 false uPath dPath tPath dlEvs dlEnd
          trEvs trEnd).1.error = none ∧
      (∀ m, Act.updError m ∉
        (process_job s0 false uPath dPath tPath dlEvs dlEnd trEvs trEnd).2) ∧
      (∀ t m, Act.updDone t m ∉
        (process_job s0 false uPath dPath tPath dlEvs dlEnd trEvs trEnd).2)) ∧
    (∀ (s0 : JState) (uPath dPath tPath : String) (dlEvs trEvs : List PEv)
        (trEnd : PEnd),
      s0.status ≠ JStatus.canceled → s0.error = none → noCancel dlEvs →
      cancelThenCheckpoint trEvs →
      (process_job s0 false uPath dPath tPath dlEvs PEnd.ok
          trEvs trEnd).1.status = JStatus.canceled ∧
      (process_job s0 false uPath dPath tPath dlEvs PEnd.ok
          trEvs trEnd).1.error = none ∧
      (∀ m, Act.updError m ∉
        (process_job s0 false uPath dPath tPath dlEvs PEnd.ok trEvs trEnd).2) ∧
      (∀ t m, Act.updDone t m ∉
        (process_job s0 false uPath dPath tPath dlEvs PEnd.ok trEvs trEnd).2)) ∧
    (∀ (s0 : JState) (uPath dPath tPath : String) (dlEvs : List PEv)
        (dlEnd : PEnd) (trEvs : List PEv) (trEnd : PEnd),
      s0.status ≠ JStatus.canceled → s0.error = none →
      cancelThenCheckpoint trEvs →
      (process_job s0 true uPath dPath tPath dlEvs dlEnd
          trEvs trEnd).1.status = JStatus.canceled ∧
      (process_job s0 true uPath dPath tPath dlEvs dlEnd
          trEvs trEnd).1.error = none ∧
      (∀ m, Act.updError m ∉
        (process_job s0 true uPath dPath tPath dlEvs dlEnd trEvs trEnd).2) ∧
      (∀ t m, Act.updDone t m ∉
        (process_job s0 true uPath dPath tPath dlEvs dlEnd trEvs trEnd).2)) ∧
    (∀ (s0 : JState) (uPath dPath tPath : String) (dlEvs : List PEv)
        (dlEnd : PEnd) (trEvs : List PEv) (trEnd : PEnd),
      s0.status = JStatus.canceled →
      process_job s0 true uPath dPath tPath dlEvs dlEnd trEvs trEnd =
        ({ s0 with progress := 0 }, [Act.updProgress 0])) := by
  refine ⟨?_, ?_, ?_, ?_⟩
  · intro s0 uPath dPath tPath dlEvs dlEnd trEvs trEnd herr hctp
    obtain ⟨h1, h2, h3, h4⟩ := process_job_dl_cancel s0 uPath dPath tPath
      dlEvs dlEnd trEvs trEnd hctp
    exact ⟨h1, h2.trans herr, h3, h4⟩
  · intro s0 uPath dPath tPath dlEvs trEvs trEnd hs herr hnc hctp
    obtain ⟨h1, h2, h3, h4⟩ := process_job_tr_cancel_url s0 uPath dPath tPath
      dlEvs trEvs trEnd hs hnc hctp
    exact ⟨h1, h2.trans herr, h3, h4⟩
  · intro s0 uPath dPath tPath dlEvs dlEnd trEvs trEnd hs herr hctp
    obtain ⟨h1, h2, h3, h4⟩ := process_job_tr_cancel_up s0 uPath dPath tPath
      dlEvs dlEnd trEvs trEnd hs hctp
    exact ⟨h1, h2.trans herr, h3, h4⟩
  · intro s0 uPath dPath tPath dlEvs dlEnd trEvs trEnd hs
    exact process_job_up_precheck s0 uPath dPath tPath dlEvs dlEnd
      trEvs trEnd hs

/-- Witness for C7: a concrete run whose download phase sees an external
cancel followed by one more progress callback ends canceled with no
error. -/
theorem cancel_checkpoint_witness :
    (process_job claimedState false "up.mp4" "dl.mp4" "t.txt"
      [PEv.cancel, PEv.prog (1 / 2)] PEnd.ok [] PEnd.ok).1.status =
      JStatus.canceled ∧
    (process_job claimedState false "up.mp4" "dl.mp4" "t.txt"
      [PEv.cancel, PEv.prog (1 / 2)] PEnd.ok [] PEnd.ok).1.error = none :=
  ⟨(cancel_checkpoint_spec.1 claimedState "up.mp4" "dl.mp4" "t.txt"
      [PEv.cancel, PEv.prog (1 / 2)] PEnd.ok [] PEnd.ok rfl
      ⟨[], [], [], 1 / 2, rfl⟩).1,
   (cancel_checkpoint_spec.1 claimedState "up.mp4" "dl.mp4" "t.txt"
      [PEv.cancel, PEv.prog (1 / 2)] PEnd.ok [] PEnd.ok rfl
      ⟨[], [], [], 1 / 2, rfl⟩).2.1⟩

/-- Counterexample for C8: on the uploaded-media path the worker's
transition writes only `status='transcribing'` and the media path — the
job's progress (set to 0 at the start of processing) is NOT set to 50 at
the transition; right after the transition it is still 0. -/
theorem uploaded_skip_counterexample :
    ((process_job claimedState true "up.mp4" "dl.mp4" "t.txt"
        [] PEnd.ok [PEv.prog 0] PEnd.ok).2.take 2 =
      [Act.updProgress 0,
       Act.updStatusMedia JStatus.transcribing "up.mp4"]) ∧
    (applyActs claimedState
      ((process_job claimedState true "up.mp4" "dl.mp4" "t.txt"
          [] PEnd.ok [PEv.prog 0] PEnd.ok).2.take 2)).status =
      JStatus.transcribing ∧
    (applyActs claimedState
      ((process_job claimedState true "up.mp4" "dl.mp4" "t.txt"
          [] PEnd.ok [PEv.prog 0] PEnd.ok).2.take 2)).progress = 0 ∧
    (applyActs claimedState
      ((process_job claimedState true "up.mp4" "dl.mp4" "t.txt"
          [] PEnd.ok [PEv.prog 0] PEnd.ok).2.take 2)).progress ≠ 50 := by
  have hs : claimedState.status ≠ JStatus.canceled := by
    simp [claimedState]
  rw [process_job_up_eq claimedState "up.mp4" "dl.mp4" "t.txt"
    [] PEnd.ok [PEv.prog 0] PEnd.ok hs]
  refine ⟨rfl, ?_, ?_, ?_⟩
  · simp [applyActs, applyAct]
  · simp [applyActs, applyAct]
  · simp only [applyActs, applyAct]
    norm_num [applyAct]

/-- C8 (amended): for a claimed job whose recorded media path points to
an existing uploaded file, the worker skips the fetch phase entirely (the
Downloader is never invoked) and transitions directly to 'transcribing';
at that transition, however, progress is still 0 (the transition writes
no progress value) — progress only reaches the [50,100] band at the first
transcription progress report, every one of which writes
`50 + fraction * 50`. -/
theorem uploaded_skip_spec :
    ∀ (s0 : JState) (uPath dPath tPath : String) (dlEvs : List PEv)
      (dlEnd : PEnd) (trEvs : List PEv) (trEnd : PEnd),
      s0.status ≠ JStatus.canceled →
      ((process_job s0 true uPath dPath tPath dlEvs dlEnd
          trEvs trEnd).2.take 2 =
        [Act.updProgress 0,
         Act.updStatusMedia JStatus.transcribing uPath]) ∧
      Act.invokeDl ∉
        (process_job s0 true uPath dPath tPath dlEvs dlEnd trEvs trEnd).2 ∧
      (applyActs s0
        ((process_job s0 true uPath dPath tPath dlEvs dlEnd
            trEvs trEnd).2.take 2)).status = JStatus.transcribing ∧
      (applyActs s0
        ((process_job s0 true uPath dPath tPath dlEvs dlEnd
            trEvs trEnd).2.take 2)).progress = 0 ∧
      (∀ p, Act.updProgress p ∈
          (process_job s0 true uPath dPath tPath dlEvs dlEnd
            trEvs trEnd).2.drop 2 →
        (∀ f, PEv.prog f ∈ trEvs → 0 ≤ f) → 50 ≤ p) := by
  intro s0 uPath dPath tPath dlEvs dlEnd trEvs trEnd hs
  rw [process_job_up_eq s0 uPath dPath tPath dlEvs dlEnd trEvs trEnd hs]
  refine ⟨rfl, ?_, ?_, ?_, ?_⟩
  · intro hm
    simp only [List.mem_cons] at hm
    rcases hm with h1 | h1 | h1
    · cases h1
    · cases h1
    · rcases runTranscribe_acts (trEntryUp s0 uPath) trEvs trEnd
        true uPath tPath Act.invokeDl h1 with
        h | ⟨f, _, h⟩ | ⟨m, _, h⟩ | ⟨m, h⟩ <;> cases h
  · simp [applyActs, applyAct]
  · simp [applyActs, applyAct]
  · intro p hp hfr
    simp only [List.drop] at hp
    rcases runTranscribe_acts (trEntryUp s0 uPath) trEvs trEnd
      true uPath tPath (Act.updProgress p) hp with
      h | ⟨f, hf, h⟩ | ⟨m, _, h⟩ | ⟨m, h⟩
    · cases h
    · injection h with h
      subst h
      have hf0 : 0 ≤ f := hfr f hf
      have : 0 ≤ f * 50 := by positivity
      unfold trScale
      linarith
    · cases h
    · cases h

/-- Witness for C8's amended theorem at a concrete uploaded-media run. -/
theorem uploaded_skip_witness :
    ((process_job claimedState true "up.mp4" "dl.mp4" "t.txt"
        [] PEnd.ok [] PEnd.ok).2.take 2 =
      [Act.updProgress 0,
       Act.updStatusMedia JStatus.transcribing "up.mp4"]) ∧
    Act.invokeDl ∉
      (process_job claimedState true "up.mp4" "dl.mp4" "t.txt"
        [] PEnd.ok [] PEnd.ok).2 :=
  ⟨(uploaded_skip_spec claimedState "up.mp4" "dl.mp4" "t.txt"
      [] PEnd.ok [] PEnd.ok (by simp [claimedState])).1,
   (uploaded_skip_spec claimedState "up.mp4" "dl.mp4" "t.txt"
      [] PEnd.ok [] PEnd.ok (by simp [claimedState])).2.1⟩

/-- C10: the final transition to 'done' sets `txt_path`, sets progress to
100, and writes `media_path` back to NULL exactly when the media was
fetched by the pipeline (`has_uploaded_media` false); a job with
user-uploaded media instead retains its media path. -/
theorem done_media_path_spec :
    ∀ (s0 : JState) (uPath dPath tPath : String) (dlEvs trEvs : List PEv),
      s0.status ≠ JStatus.canceled → noCancel dlEvs → noCancel trEvs →
      ((process_job s0 false uPath dPath tPath dlEvs PEnd.ok
          trEvs PEnd.ok).1.status = JStatus.done ∧
       (process_job s0 false uPath dPath tPath dlEvs PEnd.ok
          trEvs PEnd.ok).1.media_path = none ∧
       (process_job s0 false uPath dPath tPath dlEvs PEnd.ok
          trEvs PEnd.ok).1.txt_path = some tPath ∧
       (process_job s0 false uPath dPath tPath dlEvs PEnd.ok
          trEvs PEnd.ok).1.progress = 100) ∧
      ((process_job s0 true uPath dPath tPath dlEvs PEnd.ok
          trEvs PEnd.ok).1.status = JStatus.done ∧
       (process_job s0 true uPath dPath tPath dlEvs PEnd.ok
          trEvs PEnd.ok).1.media_path = some uPath ∧
       (process_job s0 true uPath dPath tPath dlEvs PEnd.ok
          trEvs PEnd.ok).1.txt_path = some tPath ∧
       (process_job s0 true uPath dPath tPath dlEvs PEnd.ok
          trEvs PEnd.ok).1.progress = 100) := by
  intro s0 uPath dPath tPath dlEvs trEvs hs hncd hnct
  constructor
  · rw [process_job_url_ok_eq s0 uPath dPath tPath dlEvs trEvs PEnd.ok hs hncd]
    have hrt := runTranscribe_clean_ok (trEntryUrl s0 dPath dlEvs) trEvs
      false dPath tPath (by simp [trEntryUrl]) hnct
    exact ⟨hrt.1, by simpa using hrt.2.2.1, hrt.2.1, hrt.2.2.2⟩
  · rw [process_job_up_eq s0 uPath dPath tPath dlEvs PEnd.ok trEvs PEnd.ok hs]
    have hrt := runTranscribe_clean_ok (trEntryUp s0 uPath) trEvs
      true uPath tPath (by simp [trEntryUp]) hnct
    exact ⟨hrt.1, by simpa using hrt.2.2.1, hrt.2.1, hrt.2.2.2⟩

/-- Witness for C10 at a concrete clean run of both paths. -/
theorem done_media_path_witness :
    (process_job claimedState false "up.mp4" "dl.mp4" "t.txt"
      [] PEnd.ok [] PEnd.ok).1.media_path = none ∧
    (process_job claimedState true "up.mp4" "dl.mp4" "t.txt"
      [] PEnd.ok [] PEnd.ok).1.media_path = some "up.mp4" :=
  ⟨(done_media_path_spec claimedState "up.mp4" "dl.mp4" "t.txt" [] []
      (by simp [claimedState]) (by intro e he; cases he)
      (by intro e he; cases he)).1.2.1,
   (done_media_path_spec claimedState "up.mp4" "dl.mp4" "t.txt" [] []
      (by simp [claimedState]) (by intro e he; cases he)
      (by intro e he; cases he)).2.2.1⟩

/-- C2: db_init returns each row found in 'downloading' or 'transcribing'
to 'queued' while leaving every other field of that row (in particular
progress) unchanged, and leaves rows in other statuses entirely unchanged. -/
theorem db_init_requeue_spec :
    ∀ (db : List JobRow),
      db_init_requeue db = db.map requeueRow ∧
      ∀ (r : JobRow),
        (requeueRow r).status =
          (if r.status = JStatus.downloading ∨ r.status = JStatus.transcribing
            then JStatus.queued else r.status) ∧
        (requeueRow r).id = r.id ∧
        (requeueRow r).name = r.name ∧
        (requeueRow r).slug = r.slug ∧
        (requeueRow r).url = r.url ∧
        (requeueRow r).progress = r.progress ∧
        (requeueRow r).log = r.log ∧
        (requeueRow r).media_path = r.media_path ∧
        (requeueRow r).txt_path = r.txt_path ∧
        (requeueRow r).created_at = r.created_at ∧
        (requeueRow r).updated_at = r.updated_at ∧
        (requeueRow r).error = r.error ∧
        (requeueRow r).recipient_group = r.recipient_group := by
  intro db
  refine ⟨rfl, ?_⟩
  intro r
  unfold requeueRow
  by_cases h : r.status = JStatus.downloading ∨ r.status = JStatus.transcribing
  · simp [h]
  · simp [h]

/-- C9: a slug returned by `ensure_unique_slug` collides neither with the
store nor with the filesystem namespace, hence two jobs created from the
same name receive distinct slugs; concretely, inserting the name
"My Talk" twice yields slugs "my-talk" and "my-talk-2". -/
theorem slug_uniqueness_spec :
    (∀ (dbSlugs fsNames : List String) (base s : String) (fuel : Nat),
        ensure_unique_slug dbSlugs fsNames base fuel = some s →
        ¬ dbSlugs.contains s ∧ ¬ fsNames.contains s) ∧
    (∀ (dbSlugs fsNames : List String) (base s1 s2 : String) (f1 f2 : Nat),
        ensure_unique_slug dbSlugs fsNames base f1 = some s1 →
        ensure_unique_slug (dbSlugs ++ [s1]) fsNames base f2 = some s2 →
        s1 ≠ s2) ∧
    slugify "My Talk" = "my-talk" ∧
    ensure_unique_slug [] [] "my-talk" 10 = some "my-talk" ∧
    ensure_unique_slug ["my-talk"] ["my-talk"] "my-talk" 10 = some "my-talk-2" := by
  refine ⟨?_, ?_, ?_, ?_, ?_⟩
  · intro dbSlugs fsNames base s fuel h
    exact ensure_unique_slug_from_fresh dbSlugs fsNames base fuel base 2 s h
  · intro dbSlugs fsNames base s1 s2 f1 f2 h1 h2
    have h2' := ensure_unique_slug_from_fresh (dbSlugs ++ [s1]) fsNames base f2 base 2 s2 h2
    intro heq
    apply h2'.1
    simp [heq]
  · decide
  · decide
  · decide

/-- Witness for C9: the general freshness and distinctness facts applied
at the concrete "My Talk"-twice scenario. -/
theorem slug_uniqueness_witness :
    ("my-talk" : String) ≠ "my-talk-2" ∧
    ¬ (["my-talk"] : List String).contains "my-talk-2" := by
  constructor
  · exact slug_uniqueness_spec.2.1 [] [] "my-talk" "my-talk" "my-talk-2" 10 10
      (by decide) (by decide)
  · exact (slug_uniqueness_spec.1 ["my-talk"] ["my-talk"] "my-talk" "my-talk-2" 10
      (by decide)).1

end Transcriber
